import Mathlib

/-!
Verification of the c-hashmap library (src/src/HashMap.c): an open-addressing
hash table with linear probing, tombstones, and load-factor-triggered resize.

Keys and values are opaque pointers in the C code; they are modelled as `Nat`
(keys, never NULL once past the public null checks) and `Option Nat` (values,
`none` modelling a NULL value pointer, which the library permits).  The
caller-supplied hash callback is modelled as an arbitrary function `Key → Int`
stored in the table, mirroring the `hash` function pointer of the struct.

Slots of the bucket array are a three-state type.  Crucially, the C tombstone
is the address of a static `_DUMMY_ENTRY` struct whose `hash` field is 0, and
the probe loop of `_findSlotEntries` dereferences `cur->hash` on tombstones
too; `slotStops` below reproduces that faithfully (a tombstone compares as
hash 0).

Heap allocation can fail in the C code; operations that allocate take explicit
Boolean oracles (`resizeAllocOk`, `entryAllocOk`) telling whether the
corresponding `malloc` succeeds.  A probe loop that would never terminate in C
(no stopping slot) is modelled by fuel exhaustion, surfacing as a `diverge`
result.
-/

abbrev Key := Nat

/-- One key/value entry of the table, with its cached hash (`HashEntry` in
HashMap.c).  `value = none` models a NULL value pointer. -/
structure HashEntry where
  hash : Int
  key : Key
  value : Option Nat
deriving Repr, DecidableEq

/-- One bucket of the array: `EMPTY_ENTRY` (NULL), `DUMMY_ENTRY` (the shared
tombstone), or a pointer to a real entry. -/
inductive Slot where
  | empty
  | tombstone
  | occupied (e : HashEntry)
deriving Repr, DecidableEq

/-- The `HashMap` struct: bucket array, live count (`length`), recorded bucket
count (`numBuckets`), and the caller-supplied hash callback.  The destructor
and stringification callbacks free/format opaque data and have no bearing on
the table state, so they are not carried. -/
structure HashMap where
  entries : List Slot
  length : Nat
  numBuckets : Nat
  hash : Key → Int

/-- Result of an operation whose C loop may fail to terminate: `diverge`
models an infinite probe loop. -/
inductive Res (α : Type) where
  | diverge
  | val (a : α)
deriving Repr, DecidableEq

/-- `_entryIsOpen`: true on `EMPTY_ENTRY` and `DUMMY_ENTRY`. -/
def entryIsOpen : Slot → Bool
  | Slot.empty => true
  | Slot.tombstone => true
  | Slot.occupied _ => false

/-- The hash field read through a slot pointer.  `_DUMMY_ENTRY` is a static
struct with hash field 0, so dereferencing a tombstone yields 0.  (Empty slots
are never dereferenced by the code; the value here is irrelevant.) -/
def slotHash : Slot → Int
  | Slot.empty => 0
  | Slot.tombstone => 0
  | Slot.occupied e => e.hash

/-- Negation of the continuation condition of `_findSlotEntries`'s while loop
`cur != EMPTY_ENTRY && cur->hash != hashVal`: the scan stops on an empty slot
or on a slot whose (dereferenced) hash equals the probed hash. -/
def slotStops (s : Slot) (h : Int) : Bool :=
  match s with
  | Slot.empty => true
  | s => slotHash s == h

/-- The while loop of `_findSlotEntries`, with fuel.  Out of fuel (`none`)
models a probe loop that never reaches a stopping slot and spins forever. -/
def findSlotAux (entries : List Slot) (n : Nat) (h : Int) : Nat → Nat → Option Nat
  | 0, _ => none
  | fuel+1, i =>
    if slotStops (entries.getD i Slot.empty) h then some i
    else findSlotAux entries n h fuel ((i + 1) % n)

/-- `_findSlotEntries(entries, length, hashVal)`: start at `labs(hashVal) %
length` and scan forward with wraparound.  Fuel `n` suffices: the scan visits
every residue once, so if any stopping slot exists it is found, and otherwise
the C loop runs forever. -/
def findSlotEntries (entries : List Slot) (n : Nat) (h : Int) : Option Nat :=
  findSlotAux entries n h n (h.natAbs % n)

/-- `_findSlotMap`. -/
def findSlotMap (m : HashMap) (key : Key) : Option Nat :=
  findSlotEntries m.entries m.numBuckets (m.hash key)

/-- `_hashmapGetIndex`: `some none` models `ENTRY_NOT_FOUND`, `some (some i)`
a found index, outer `none` a diverging probe. -/
def hashmapGetIndex (m : HashMap) (key : Key) : Option (Option Nat) :=
  match findSlotMap m key with
  | none => none
  | some idx =>
    if entryIsOpen (m.entries.getD idx Slot.empty) then some none else some (some idx)

/-- The `value` field read from a slot (only ever read on occupied slots). -/
def slotValue : Slot → Option Nat
  | Slot.occupied e => e.value
  | _ => none

/-- `_hashmapRemoveIndex`: return the stored value, overwrite the slot with
`DUMMY_ENTRY`, decrement the live count. -/
def hashmapRemoveIndex (m : HashMap) (i : Nat) : (Option Nat) × HashMap :=
  (slotValue (m.entries.getD i Slot.empty),
   { m with entries := m.entries.set i Slot.tombstone, length := m.length - 1 })

/-- Modelled from the spec: `LOAD_FACTOR` lives in the missing
`include/HashMap.h`; §4.3 of the spec gives 2/3 (the C source compares
`(double)length / (double)numBuckets > LOAD_FACTOR`; modelled exactly as
`3 * length > 2 * numBuckets`).  The second return of `_hashmapNeedsResize`
guards the last-open-slot edge case. -/
def hashmapNeedsResize (m : HashMap) : Bool :=
  if 3 * m.length > 2 * m.numBuckets then true
  else m.length == m.numBuckets - 1

/-- Modelled from the spec: `HASHMAP_LARGE_SIZE` (65536) from the missing
`include/HashMap.h` (§4.4: growth factor 4 below the "large" threshold 65536,
else 2). -/
def HASHMAP_LARGE_SIZE : Nat := 65536

/-- Modelled from the spec: `HASHMAP_IS_LARGE(map)` from the missing
`include/HashMap.h` — a map is "large" once its bucket count is at least
`HASHMAP_LARGE_SIZE` (per the comment above `_hashmapResize`). -/
def HASHMAP_IS_LARGE (m : HashMap) : Bool :=
  HASHMAP_LARGE_SIZE ≤ m.numBuckets

/-- `_hashmapInsert` (the no-resize placement primitive): find the slot for
the entry's hash; if it holds a real entry that entry is destroyed and
replaced (overwrite, returns 0), otherwise the slot was open (returns 1 and
the caller increments the live count). -/
def hashmapInsertEntries (entries : List Slot) (n : Nat) (toInsert : HashEntry) :
    Option (Bool × List Slot) :=
  match findSlotEntries entries n toInsert.hash with
  | none => none
  | some i =>
    let entryWasNew := entryIsOpen (entries.getD i Slot.empty)
    some (entryWasNew, entries.set i (Slot.occupied toInsert))

/-- The reinsertion loop of `_hashmapResize`:
`for (i = 0; entriesCopied < map->length && i < map->numBuckets; i++)`,
skipping open slots and placing each real entry into the new array. -/
def resizeCopy (newN : Nat) : List Slot → List Slot → Nat → Nat → Option (List Slot)
  | [], newEntries, _, _ => some newEntries
  | s :: rest, newEntries, copied, len =>
    if copied < len then
      match s with
      | Slot.occupied e =>
        match hashmapInsertEntries newEntries newN e with
        | none => none
        | some p => resizeCopy newN rest p.2 (copied + 1) len
      | _ => resizeCopy newN rest newEntries copied len
    else some newEntries

inductive ResizeResult where
  | allocFail
  | diverge
  | ok (m : HashMap)

/-- `_hashmapResize`: grow by 4 (or 2 once large), allocate the new all-empty
array (`allocOk` is the oracle for that `malloc`), reinsert the live entries
scanning the old array up to `numBuckets` with the early-stop counter, then
install the new array and bucket count.  The live count is untouched. -/
def hashmapResize (m : HashMap) (allocOk : Bool) : ResizeResult :=
  let newNumBuckets := m.numBuckets * (if HASHMAP_IS_LARGE m then 2 else 4)
  if allocOk = false then ResizeResult.allocFail
  else
    match resizeCopy newNumBuckets (m.entries.take m.numBuckets)
        (List.replicate newNumBuckets Slot.empty) 0 m.length with
    | none => ResizeResult.diverge
    | some newEntries =>
      ResizeResult.ok { m with entries := newEntries, numBuckets := newNumBuckets }

inductive InsertResult where
  | diverge
  | result (success : Bool) (m : Option HashMap)

/-- `hashmapInsert`: null checks, conditional resize (failing it aborts with
the map untouched), allocation of the new entry (`entryAllocOk` is the oracle
for `_hashentryNew`'s `malloc`), then placement, bumping the live count when
the placement did not overwrite. -/
def hashmapInsert (map : Option HashMap) (key : Option Key) (value : Option Nat)
    (resizeAllocOk entryAllocOk : Bool) : InsertResult :=
  match map, key with
  | none, _ => InsertResult.result false none
  | some m, none => InsertResult.result false (some m)
  | some m, some k =>
    match (if hashmapNeedsResize m then hashmapResize m resizeAllocOk
           else ResizeResult.ok m) with
    | ResizeResult.allocFail => InsertResult.result false (some m)
    | ResizeResult.diverge => InsertResult.diverge
    | ResizeResult.ok m2 =>
      if entryAllocOk = false then InsertResult.result false (some m2)
      else
        match hashmapInsertEntries m2.entries m2.numBuckets
            (HashEntry.mk (m2.hash k) k value) with
        | none => InsertResult.diverge
        | some p =>
          InsertResult.result true
            (some { m2 with entries := p.2,
                            length := m2.length + (if p.1 then 1 else 0) })

/-- `hashmapGet`: NULL on a missing map or key, NULL when the probe stops on
an open slot, else the stored value pointer (itself possibly NULL). -/
def hashmapGet (map : Option HashMap) (key : Option Key) : Res (Option Nat) :=
  match map, key with
  | none, _ => Res.val none
  | some _, none => Res.val none
  | some m, some k =>
    match hashmapGetIndex m k with
    | none => Res.diverge
    | some none => Res.val none
    | some (some idx) => Res.val (slotValue (m.entries.getD idx Slot.empty))

/-- `hashmapRemove`: probe; on a match return the value (ownership to the
caller), tombstone the slot and decrement the live count; otherwise return
NULL without mutation. -/
def hashmapRemove (map : Option HashMap) (key : Option Key) :
    Res ((Option Nat) × Option HashMap) :=
  match map, key with
  | none, _ => Res.val (none, none)
  | some m, none => Res.val (none, some m)
  | some m, some k =>
    match hashmapGetIndex m k with
    | none => Res.diverge
    | some none => Res.val (none, some m)
    | some (some idx) =>
      let p := hashmapRemoveIndex m idx
      Res.val (p.1, some p.2)

/-- `hashmapDeleteKey`: false only on a missing map; otherwise call
`hashmapRemove` and, when the returned value pointer is non-NULL, pass it to
the value destructor.  The third component records the argument handed to
`deleteValue` (`none` means the destructor was not invoked). -/
def hashmapDeleteKey (map : Option HashMap) (key : Option Key) :
    Res (Bool × Option HashMap × Option Nat) :=
  match map with
  | none => Res.val (false, none, none)
  | some m =>
    match hashmapRemove (some m) key with
    | Res.diverge => Res.diverge
    | Res.val p => Res.val (true, p.2, p.1)

/-- `hashmapContains`. -/
def hashmapContains (map : Option HashMap) (key : Option Key) : Res Bool :=
  match map, key with
  | none, _ => Res.val false
  | some _, none => Res.val false
  | some m, some k =>
    match hashmapGetIndex m k with
    | none => Res.diverge
    | some none => Res.val false
    | some (some _) => Res.val true

/-- `hashmapLength`: −1 sentinel for a missing map. -/
def hashmapLength : Option HashMap → Int
  | none => -1
  | some m => (m.length : Int)

/-- `hashmapIsEmpty`: a missing map reports false. -/
def hashmapIsEmpty : Option HashMap → Bool
  | none => false
  | some m => m.length == 0

/-- `hashmapValueToString`: an empty string when the map is missing, the map
is empty, or `hashmapGet` came back NULL; otherwise the result of the
`printValue` callback on the value.  The payload records the argument handed
to `printValue` (`none`: the callback was not invoked and the empty string was
returned). -/
def hashmapValueToString (map : Option HashMap) (key : Option Key) : Res (Option Nat) :=
  match hashmapGet map key with
  | Res.diverge => Res.diverge
  | Res.val value =>
    if map.isNone || hashmapIsEmpty map || value.isNone then Res.val none
    else Res.val value

/-- The while loop of `hashmapClear`, running over the first `numBuckets`
slots with the live count as countdown: every visited slot is reset to empty
(destroying real entries, which decrements the count) and the loop ends as
soon as the count hits zero.  Returns the processed list and the final count. -/
def clearLoop : Nat → List Slot → (List Slot × Nat)
  | 0, es => (es, 0)
  | len+1, [] => ([], len+1)
  | len+1, s :: rest =>
    let next := clearLoop (match s with | Slot.occupied _ => len | _ => len+1) rest
    (Slot.empty :: next.1, next.2)

/-- `hashmapClear`. -/
def hashmapClear : Option HashMap → Option HashMap
  | none => none
  | some m =>
    let r := clearLoop m.length (m.entries.take m.numBuckets)
    some { m with entries := r.1 ++ m.entries.drop m.numBuckets, length := r.2 }

/-- `_closestPow2`'s while loop `while (toReturn < x) toReturn *= 2`, fueled;
64 iterations cover the whole range of a 64-bit `long`. -/
def closestPow2Aux : Nat → Int → Int → Int
  | 0, toReturn, _ => toReturn
  | fuel+1, toReturn, x =>
    if toReturn < x then closestPow2Aux fuel (toReturn * 2) x else toReturn

/-- `_closestPow2`. -/
def closestPow2 (x : Int) : Int := closestPow2Aux 64 1 x

/-- `_makeBuckets`: a fresh all-empty array. -/
def makeBuckets (numBuckets : Nat) : List Slot := List.replicate numBuckets Slot.empty

/-- `hashmapNewBuckets` (construction allocations assumed to succeed, and the
four destructor/print callbacks assumed supplied — passing any of them as NULL
returns NULL before any state exists).  Note the C source allocates
`_closestPow2(numBuckets)` buckets but records `toReturn->numBuckets =
numBuckets`, the unrounded request; this is reproduced faithfully. -/
def hashmapNewBuckets (numBuckets : Int) (hash : Key → Int) : Option HashMap :=
  if numBuckets ≤ 0 then none
  else some { entries := makeBuckets (closestPow2 numBuckets).toNat,
              length := 0,
              numBuckets := numBuckets.toNat,
              hash := hash }

/-- Modelled from the spec: `DEFAULT_BUCKETS` (16) from the missing
`include/HashMap.h` ("a default constructor uses 16"). -/
def DEFAULT_BUCKETS : Int := 16

/-- `hashmapNew`. -/
def hashmapNew (hash : Key → Int) : Option HashMap :=
  hashmapNewBuckets DEFAULT_BUCKETS hash

/-! ### Derived notions used to state the properties -/

/-- The real entries held by a bucket array, in array order. -/
def occEntries (a : List Slot) : List HashEntry :=
  a.filterMap (fun s => match s with | Slot.occupied e => some e | _ => none)

/-- Number of occupied slots. -/
def occCount (a : List Slot) : Nat := (occEntries a).length

/-- No tombstones anywhere in the array. -/
def noTomb (a : List Slot) : Prop := ∀ s ∈ a, s ≠ Slot.tombstone

/-- Entry `e` is retrievable from the bucket array: the probe for its cached
hash terminates exactly on the slot holding `e`. -/
def retrievable (a : List Slot) (n : Nat) (e : HashEntry) : Prop :=
  ∃ i, findSlotEntries a n e.hash = some i ∧ a.getD i Slot.empty = Slot.occupied e

/-- Well-formedness of a table as produced by the public operations (within
the regime where cached hashes are pairwise distinct): positive bucket count
backed by the array, accurate live count, pairwise distinct cached hashes, and
cached hashes consistent with the hash callback. -/
def tableWellFormed (m : HashMap) : Prop :=
  0 < m.numBuckets ∧
  m.numBuckets ≤ m.entries.length ∧
  m.length = occCount (m.entries.take m.numBuckets) ∧
  List.Pairwise (fun a b => a.hash ≠ b.hash) (occEntries (m.entries.take m.numBuckets)) ∧
  ∀ e ∈ occEntries (m.entries.take m.numBuckets), m.hash e.key = e.hash

/-- Extract the map from an insert result (for chaining concrete traces). -/
def InsertResult.toMap : InsertResult → Option HashMap
  | InsertResult.diverge => none
  | InsertResult.result _ m => m

/-- Whether an insert returned true. -/
def InsertResult.succeeded : InsertResult → Bool
  | InsertResult.diverge => false
  | InsertResult.result b _ => b

/-- Extract the map from a remove result (for chaining concrete traces). -/
def removeMap : Res ((Option Nat) × Option HashMap) → Option HashMap
  | Res.diverge => none
  | Res.val p => p.2

/-- Decides whether `n` is a power of two within the range of a 64-bit
`long` (the C type of `numBuckets`). -/
def isPow2 (n : Nat) : Bool := (List.range 64).any (fun k => n == 2 ^ k)

/-! ### Concrete tables and traces used by individual claims -/

/-- The table built by `hashmapNewBuckets(20, ...)`. -/
def c1map : Option HashMap := hashmapNewBuckets 20 (fun _ => 0)

/-- A caller-supplied hash callback: key 1 hashes to 4, every other key to 0.
(The library accepts any hash function; hash value 0 is perfectly legal.) -/
def exHash : Key → Int := fun k => if k = 1 then 4 else 0

/-- Fresh 4-bucket table under `exHash`. -/
def exM0 : Option HashMap := hashmapNewBuckets 4 exHash

/-- ... after `insert(key 1, value 11)` (hash 4, lands in bucket 0). -/
def exM1 : Option HashMap := (hashmapInsert exM0 (some 1) (some 11) true true).toMap

/-- ... after `insert(key 2, value 22)` (hash 0, collides with bucket 0,
probes to bucket 1). -/
def exM2 : Option HashMap := (hashmapInsert exM1 (some 2) (some 22) true true).toMap

/-- ... after `remove(key 1)`: bucket 0 becomes a tombstone, while the
hash-0 entry for key 2 still sits in bucket 1. -/
def exM3 : Option HashMap := removeMap (hashmapRemove exM2 (some 1))

/-- ... after `insert(key 3, value 33)` (hash 0): the probe for hash 0 stops
on the tombstone in bucket 0 and a second hash-0 entry is created there. -/
def exM4 : Option HashMap := (hashmapInsert exM3 (some 3) (some 33) true true).toMap

/-- The bucket array of `exM3`. -/
def exM3entries : List Slot :=
  [Slot.tombstone, Slot.occupied (HashEntry.mk 0 2 (some 22)), Slot.empty, Slot.empty]

/-- The bucket array of `exM4`. -/
def exM4entries : List Slot :=
  [Slot.occupied (HashEntry.mk 0 3 (some 33)),
   Slot.occupied (HashEntry.mk 0 2 (some 22)), Slot.empty, Slot.empty]

/-- A 16-bucket array holding 10 entries (hashes 0–9 sitting in buckets 0–9). -/
def c4entries : List Slot :=
  [Slot.occupied (HashEntry.mk 0 0 (some 0)), Slot.occupied (HashEntry.mk 1 1 (some 1)),
   Slot.occupied (HashEntry.mk 2 2 (some 2)), Slot.occupied (HashEntry.mk 3 3 (some 3)),
   Slot.occupied (HashEntry.mk 4 4 (some 4)), Slot.occupied (HashEntry.mk 5 5 (some 5)),
   Slot.occupied (HashEntry.mk 6 6 (some 6)), Slot.occupied (HashEntry.mk 7 7 (some 7)),
   Slot.occupied (HashEntry.mk 8 8 (some 8)), Slot.occupied (HashEntry.mk 9 9 (some 9)),
   Slot.empty, Slot.empty, Slot.empty, Slot.empty, Slot.empty, Slot.empty]

/-- A table at live count 10 of 16 buckets: inserting one more entry pushes
the load factor to 11/16 > 2/3. -/
def c4map : HashMap :=
  { entries := c4entries, length := 10, numBuckets := 16, hash := fun k => (k : Int) }

/-- A table holding one entry (key 5) whose stored value pointer is NULL;
keys other than 5 hash to bucket 1, which is empty. -/
def c9map : HashMap :=
  { entries := [Slot.occupied (HashEntry.mk 0 5 none), Slot.empty],
    length := 1, numBuckets := 2,
    hash := fun k => if k = 5 then 0 else 1 }

/-- A well-formed table at live count 3 of 4 buckets (3 = numBuckets − 1 and
3·3 > 2·4, so the next insert triggers a resize). -/
def w6map : HashMap :=
  { entries := [Slot.empty, Slot.occupied (HashEntry.mk 1 1 (some 11)),
                Slot.occupied (HashEntry.mk 2 2 (some 12)),
                Slot.occupied (HashEntry.mk 3 3 (some 13))],
    length := 3, numBuckets := 4, hash := fun k => (k : Int) }

/-- A fresh, empty 4-bucket table hashing each key to itself. -/
def w7map : HashMap :=
  { entries := [Slot.empty, Slot.empty, Slot.empty, Slot.empty],
    length := 0, numBuckets := 4, hash := fun k => (k : Int) }

/-- `w7map` after `insert(key 5, value 7)` (hash 5 lands in bucket 1). -/
def w7mapAfter : HashMap :=
  { entries := [Slot.empty, Slot.occupied (HashEntry.mk 5 5 (some 7)), Slot.empty, Slot.empty],
    length := 1, numBuckets := 4, hash := fun k => (k : Int) }

/-- A table whose last occupied bucket (index 2) is followed by a tombstone
(index 3): clearing stops scanning after index 2 and the trailing tombstone
survives. -/
def c10map : HashMap :=
  { entries := [Slot.occupied (HashEntry.mk 4 1 (some 41)), Slot.tombstone,
                Slot.occupied (HashEntry.mk 6 3 (some 63)), Slot.tombstone],
    length := 2, numBuckets := 4, hash := fun _ => 0 }

/-! ### C1 -/

/-- C1 (code_bug): the claim says the bucket-array length recorded in the
table is always a power of two, and that `createWithCapacity(initialBuckets)`
records the smallest power of two ≥ `initialBuckets`.  The code computes that
rounding (`_closestPow2(20) = 32` slots are allocated) but then stores the raw
request in `toReturn->numBuckets = numBuckets;`: the table built with 20
requested buckets records `numBuckets = 20` — not a power of two — while its
allocated array has 32 slots.  All probing uses the recorded 20. -/
theorem claim1_recorded_bucket_count_not_rounded :
    c1map.map (fun m => (m.numBuckets, m.entries.length)) = some (20, 32) ∧
    isPow2 20 = false ∧ isPow2 32 = true := by
  exact ⟨rfl, by decide, by decide⟩

/-! ### C2 -/

/-- C2 (code_bug): the claim says the probe never stops on a tombstone.  But
`_DUMMY_ENTRY`'s hash field is 0 and `_findSlotEntries` compares `cur->hash !=
hashVal` on tombstones too, so a probe for hash value 0 terminates on the
first tombstone it meets.  The trace `exM0 → exM4` (insert key 1/hash 4,
insert key 2/hash 0, remove key 1) reaches a table whose bucket 0 is a
tombstone and whose bucket 1 holds the hash-0 entry for key 2; the probe for
hash 0 stops at the tombstone in bucket 0, and consequently `hashmapGet` on
key 2 answers NULL even though key 2 is stored in the table. -/
theorem claim2_probe_stops_on_tombstone_for_hash_zero :
    exM3 = some { entries := exM3entries, length := 1, numBuckets := 4, hash := exHash } ∧
    exM3entries.getD 0 Slot.empty = Slot.tombstone ∧
    findSlotEntries exM3entries 4 0 = some 0 ∧
    exM3entries.getD 1 Slot.empty = Slot.occupied (HashEntry.mk 0 2 (some 22)) ∧
    hashmapGet exM3 (some 2) = Res.val none := by
  exact ⟨rfl, rfl, rfl, rfl, rfl⟩

/-! ### C3 -/

/-- C3 (code_bug): the claim says no reachable table holds two occupied slots
with the same cached hash.  Continuing the public-operation trace of C2 with
`insert(key 3, value 33)` (hash 0): the probe for hash 0 stops on the
tombstone in bucket 0 (because the dummy entry's hash field is 0) instead of
walking on to the existing hash-0 entry in bucket 1, so a second hash-0 entry
is created and the table ends with buckets 0 and 1 both occupied with cached
hash 0. -/
theorem claim3_duplicate_cached_hash_reachable :
    exM4.map (fun m => (m.entries.getD 0 Slot.empty, m.entries.getD 1 Slot.empty)) =
      some (Slot.occupied (HashEntry.mk 0 3 (some 33)),
            Slot.occupied (HashEntry.mk 0 2 (some 22))) := by
  exact rfl

/-! ### Generic helper lemmas -/

lemma getD_set_self (l : List Slot) (i : Nat) (a d : Slot) (h : i < l.length) :
    (l.set i a).getD i d = a := by
  rw [List.getD_eq_getElem?_getD, List.getElem?_set_eq_of_lt a h]
  rfl

lemma getD_set_ne (l : List Slot) (i j : Nat) (a d : Slot) (h : i ≠ j) :
    (l.set i a).getD j d = l.getD j d := by
  rw [List.getD_eq_getElem?_getD, List.getElem?_set_ne h, ← List.getD_eq_getElem?_getD]

lemma getD_take (l : List Slot) (n i : Nat) (d : Slot) (h : i < n) :
    (l.take n).getD i d = l.getD i d := by
  rw [List.getD_eq_getElem?_getD, List.getElem?_take, if_pos h, ← List.getD_eq_getElem?_getD]

lemma getD_drop (l : List Slot) (n i : Nat) (d : Slot) :
    (l.drop n).getD i d = l.getD (n + i) d := by
  rw [List.getD_eq_getElem?_getD, List.getElem?_drop, ← List.getD_eq_getElem?_getD]

lemma getD_append_left (l1 l2 : List Slot) (i : Nat) (d : Slot) (h : i < l1.length) :
    (l1 ++ l2).getD i d = l1.getD i d := by
  rw [List.getD_eq_getElem?_getD, List.getElem?_append, if_pos h, ← List.getD_eq_getElem?_getD]

lemma getD_append_right (l1 l2 : List Slot) (i : Nat) (d : Slot) (h : l1.length ≤ i) :
    (l1 ++ l2).getD i d = l2.getD (i - l1.length) d := by
  rw [List.getD_eq_getElem?_getD, List.getElem?_append_right h, ← List.getD_eq_getElem?_getD]

/-! ### Load-factor check -/

/-- `_hashmapNeedsResize` answers true exactly on the modelled condition. -/
lemma hashmapNeedsResize_eq_true_iff (m : HashMap) :
    hashmapNeedsResize m = true ↔
      3 * m.length > 2 * m.numBuckets ∨ m.length = m.numBuckets - 1 := by
  by_cases hlt : 3 * m.length > 2 * m.numBuckets
  · simp [hashmapNeedsResize, hlt]
  · simp [hashmapNeedsResize, hlt]

/-! ### C4 -/

/-- C4 (counterexample): at live count 10 of 16 buckets the post-insertion
load factor 11/16 exceeds 2/3, so by the claim the insert must resize; yet the
insert succeeds even when the resize allocation oracle is false, i.e. no
resize was attempted. -/
theorem claim4_counterexample_post_insertion_factor :
    3 * (c4map.length + 1) > 2 * c4map.numBuckets ∧
    hashmapNeedsResize c4map = false ∧
    (hashmapInsert (some c4map) (some 10) (some 110) false true).succeeded = true := by
  exact ⟨by decide, rfl, rfl⟩

/-- C4 (amended): insert triggers a resize exactly when the pre-insertion
(current) load factor exceeds 2/3, or the live count equals the bucket count
minus 1.  "A resize is triggered" is observed through the resize-allocation
oracle: with that allocation failing, insert aborts with `false` and the map
untouched precisely when the trigger condition holds, and otherwise never
attempts the resize allocation. -/
theorem claim4_resize_trigger_is_pre_insertion (m : HashMap) (k : Key) (v : Option Nat)
    (_hpos : 0 < m.numBuckets) :
    hashmapInsert (some m) (some k) v false true = InsertResult.result false (some m) ↔
      3 * m.length > 2 * m.numBuckets ∨ m.length = m.numBuckets - 1 := by
  constructor
  · intro h
    rw [← hashmapNeedsResize_eq_true_iff]
    by_contra hres
    have hfalse : hashmapNeedsResize m = false := by
      revert hres; cases hashmapNeedsResize m <;> simp
    rw [hashmapInsert, hfalse] at h
    simp only [Bool.false_eq_true, if_false] at h
    cases heq : hashmapInsertEntries m.entries m.numBuckets (HashEntry.mk (m.hash k) k v) with
    | none => rw [heq] at h; cases h
    | some p => rw [heq] at h; cases h
  · intro hcond
    have hres : hashmapNeedsResize m = true := (hashmapNeedsResize_eq_true_iff m).mpr hcond
    rw [hashmapInsert, hres]
    rfl

/-- Witness for C4's amended theorem at a concrete table where the trigger
condition holds through the `length = numBuckets − 1` disjunct. -/
theorem claim4_witness :
    0 < w6map.numBuckets ∧
    (hashmapInsert (some w6map) (some 9) (some 99) false true =
        InsertResult.result false (some w6map) ↔
      3 * w6map.length > 2 * w6map.numBuckets ∨ w6map.length = w6map.numBuckets - 1) :=
  ⟨by decide, claim4_resize_trigger_is_pre_insertion w6map 9 (some 99) (by decide)⟩

/-! ### C8 -/

/-- C8 (confirmed): whenever `hashmapDeleteKey` returns, it returns false
exactly when the map is absent, and its side effects are those of
`hashmapRemove` — the resulting map is `hashmapRemove`'s, and the argument
handed to the value destructor is exactly the (non-NULL) removed value, so a
removed entry has its value destroyed and an absent key destroys nothing while
still reporting true. -/
theorem claim8_deleteKey_false_iff_absent (mo : Option HashMap) (k : Option Key)
    (b : Bool) (m2 : Option HashMap) (dv : Option Nat)
    (h : hashmapDeleteKey mo k = Res.val (b, m2, dv)) :
    (b = false ↔ mo = none) ∧ hashmapRemove mo k = Res.val (dv, m2) := by
  cases mo with
  | none =>
    have h2 : (Res.val (false, (none : Option HashMap), (none : Option Nat)) :
        Res (Bool × Option HashMap × Option Nat)) = Res.val (b, m2, dv) := h
    obtain ⟨hb, hm, hd⟩ : false = b ∧ (none : Option HashMap) = m2 ∧ (none : Option Nat) = dv := by
      cases h2; exact ⟨rfl, rfl, rfl⟩
    subst hb; subst hm; subst hd
    exact ⟨by simp, rfl⟩
  | some m =>
    rw [hashmapDeleteKey] at h
    cases hr : hashmapRemove (some m) k with
    | diverge => rw [hr] at h; cases h
    | val p =>
      rw [hr] at h
      obtain ⟨v1, mm⟩ := p
      obtain ⟨hb, hm, hd⟩ : true = b ∧ mm = m2 ∧ v1 = dv := by
        cases h; exact ⟨rfl, rfl, rfl⟩
      subst hb; subst hm; subst hd
      exact ⟨by simp, rfl⟩

/-- Witness for C8 at the absent table (the false branch). -/
theorem claim8_witness :
    ((false = false) ↔ (none : Option HashMap) = none) ∧
      hashmapRemove (none : Option HashMap) (some 5) = Res.val (none, none) :=
  claim8_deleteKey_false_iff_absent none (some 5) false none none rfl

/-! ### C9 -/

/-- C9 (confirmed): on a non-empty table, for a key whose entry is present but
stores a NULL value, `hashmapValueToString` returns the empty string without
invoking the value-to-string callback (`Res.val none` — the payload records
the callback argument), and `hashmapGet` returns NULL — exactly the results
both functions give for a key that is absent, so the two cases are
indistinguishable through these functions. -/
theorem claim9_null_value_indistinguishable_from_absent (m : HashMap) (k k2 : Key)
    (i : Nat) (e : HashEntry)
    (_hne : m.length ≠ 0)
    (hfound : hashmapGetIndex m k = some (some i))
    (hslot : m.entries.getD i Slot.empty = Slot.occupied e)
    (hnull : e.value = none)
    (habsent : hashmapGetIndex m k2 = some none) :
    hashmapValueToString (some m) (some k) = Res.val none ∧
    hashmapGet (some m) (some k) = Res.val none ∧
    hashmapValueToString (some m) (some k2) = Res.val none ∧
    hashmapGet (some m) (some k2) = Res.val none := by
  have hget : hashmapGet (some m) (some k) = Res.val none := by
    rw [hashmapGet, hfound]
    show Res.val (slotValue (m.entries.getD i Slot.empty)) = Res.val none
    rw [hslot]
    simp [slotValue, hnull]
  have hget2 : hashmapGet (some m) (some k2) = Res.val none := by
    rw [hashmapGet, habsent]
  refine ⟨?_, hget, ?_, hget2⟩
  · rw [hashmapValueToString, hget]; simp
  · rw [hashmapValueToString, hget2]; simp

/-- Witness for C9: `c9map` stores key 5 with a NULL value; key 9 is absent. -/
theorem claim9_witness :
    (c9map.length ≠ 0 ∧
     hashmapGetIndex c9map 5 = some (some 0) ∧
     c9map.entries.getD 0 Slot.empty = Slot.occupied (HashEntry.mk 0 5 none) ∧
     hashmapGetIndex c9map 9 = some none) ∧
    (hashmapValueToString (some c9map) (some 5) = Res.val none ∧
     hashmapGet (some c9map) (some 5) = Res.val none ∧
     hashmapValueToString (some c9map) (some 9) = Res.val none ∧
     hashmapGet (some c9map) (some 9) = Res.val none) :=
  ⟨⟨by decide, rfl, rfl, rfl⟩,
   claim9_null_value_indistinguishable_from_absent c9map 5 9 0 (HashEntry.mk 0 5 none)
     (by decide) rfl rfl rfl rfl⟩

/-! ### Occupied-slot counting -/

lemma occEntries_cons_occ (e : HashEntry) (rest : List Slot) :
    occEntries (Slot.occupied e :: rest) = e :: occEntries rest := rfl

lemma occEntries_cons_open (s : Slot) (rest : List Slot) (h : entryIsOpen s = true) :
    occEntries (s :: rest) = occEntries rest := by
  cases s with
  | empty => rfl
  | tombstone => rfl
  | occupied e => simp [entryIsOpen] at h

lemma occCount_cons_occ (e : HashEntry) (rest : List Slot) :
    occCount (Slot.occupied e :: rest) = occCount rest + 1 := rfl

lemma occCount_cons_open (s : Slot) (rest : List Slot) (h : entryIsOpen s = true) :
    occCount (s :: rest) = occCount rest := by
  unfold occCount
  rw [occEntries_cons_open s rest h]

lemma all_open_of_occCount_eq_zero :
    ∀ (es : List Slot), occCount es = 0 → ∀ j, entryIsOpen (es.getD j Slot.empty) = true := by
  intro es
  induction es with
  | nil => intro _ j; cases j <;> rfl
  | cons s rest ih =>
    intro h j
    cases s with
    | occupied e => rw [occCount_cons_occ] at h; omega
    | empty =>
      rw [occCount_cons_open Slot.empty rest rfl] at h
      cases j with
      | zero => rfl
      | succ j2 => rw [List.getD_cons_succ]; exact ih h j2
    | tombstone =>
      rw [occCount_cons_open Slot.tombstone rest rfl] at h
      cases j with
      | zero => rfl
      | succ j2 => rw [List.getD_cons_succ]; exact ih h j2

lemma occCount_eq_zero_of_all_open :
    ∀ (es : List Slot), (∀ j, j < es.length → entryIsOpen (es.getD j Slot.empty) = true) →
      occCount es = 0 := by
  intro es
  induction es with
  | nil => intro _; rfl
  | cons s rest ih =>
    intro h
    have h0 : entryIsOpen s = true := by
      have := h 0 (by simp)
      simpa using this
    rw [occCount_cons_open s rest h0]
    refine ih ?_
    intro j hj
    have := h (j + 1) (by simpa using Nat.succ_lt_succ hj)
    simpa [List.getD_cons_succ] using this

/-! ### The clear loop -/

lemma clearLoop_cons_occ (e : HashEntry) (rest : List Slot) (n : Nat) :
    clearLoop (n + 1) (Slot.occupied e :: rest) =
      (Slot.empty :: (clearLoop n rest).1, (clearLoop n rest).2) := rfl

lemma clearLoop_cons_open (s : Slot) (rest : List Slot) (n : Nat) (h : entryIsOpen s = true) :
    clearLoop (n + 1) (s :: rest) =
      (Slot.empty :: (clearLoop (n + 1) rest).1, (clearLoop (n + 1) rest).2) := by
  cases s with
  | empty => rfl
  | tombstone => rfl
  | occupied e => simp [entryIsOpen] at h

/-- Full characterisation of `hashmapClear`'s while loop when the live count
matches the number of occupied slots: the final count is 0, the array length
is preserved, every slot at or before the last occupied slot is reset to
empty, and every slot strictly after the last occupied slot keeps its prior
state (the loop exits once the countdown hits zero). -/
lemma clearLoop_spec :
    ∀ (es : List Slot) (len : Nat), occCount es = len →
      (clearLoop len es).2 = 0 ∧ (clearLoop len es).1.length = es.length ∧
      ∀ i, ((∃ j, i ≤ j ∧ j < es.length ∧ entryIsOpen (es.getD j Slot.empty) = false) →
              (clearLoop len es).1.getD i Slot.empty = Slot.empty) ∧
           ((∀ j, i ≤ j → j < es.length → entryIsOpen (es.getD j Slot.empty) = true) →
              (clearLoop len es).1.getD i Slot.empty = es.getD i Slot.empty) := by
  intro es
  induction es with
  | nil =>
    intro len h
    have hlen : len = 0 := by rw [← h]; rfl
    subst hlen
    refine ⟨rfl, rfl, ?_⟩
    intro i
    constructor
    · rintro ⟨j, _, hj, _⟩
      simp at hj
    · intro _; rfl
  | cons s rest ih =>
    intro len h
    have openCase : entryIsOpen s = true →
        (clearLoop len (s :: rest)).2 = 0 ∧
        (clearLoop len (s :: rest)).1.length = (s :: rest).length ∧
        ∀ i, ((∃ j, i ≤ j ∧ j < (s :: rest).length ∧
                 entryIsOpen ((s :: rest).getD j Slot.empty) = false) →
                (clearLoop len (s :: rest)).1.getD i Slot.empty = Slot.empty) ∧
             ((∀ j, i ≤ j → j < (s :: rest).length →
                 entryIsOpen ((s :: rest).getD j Slot.empty) = true) →
                (clearLoop len (s :: rest)).1.getD i Slot.empty =
                  (s :: rest).getD i Slot.empty) := by
      intro hopen
      rw [occCount_cons_open s rest hopen] at h
      cases len with
      | zero =>
        refine ⟨rfl, rfl, ?_⟩
        intro i
        constructor
        · rintro ⟨j, _, _, hbad⟩
          have := all_open_of_occCount_eq_zero (s :: rest)
            (by rw [occCount_cons_open s rest hopen]; exact h) j
          rw [this] at hbad
          cases hbad
        · intro _; rfl
      | succ n =>
        obtain ⟨ih2, ihlen, ihi⟩ := ih (n + 1) h
        rw [clearLoop_cons_open s rest n hopen]
        refine ⟨ih2, by simp [ihlen], ?_⟩
        intro i
        constructor
        · rintro ⟨j, hij, hjlt, hbad⟩
          cases i with
          | zero => exact List.getD_cons_zero
          | succ i2 =>
            cases j with
            | zero =>
              rw [List.getD_cons_zero] at hbad
              rw [hopen] at hbad
              cases hbad
            | succ j2 =>
              have h2 : j2 < rest.length := by simpa using hjlt
              have h3 : entryIsOpen (rest.getD j2 Slot.empty) = false := by
                rw [List.getD_cons_succ] at hbad; exact hbad
              have hres := (ihi i2).1 ⟨j2, by omega, h2, h3⟩
              rw [List.getD_cons_succ]
              exact hres
        · intro hall
          cases i with
          | zero =>
            exfalso
            have hall2 : ∀ j, j < rest.length →
                entryIsOpen (rest.getD j Slot.empty) = true := by
              intro j hjl
              have := hall (j + 1) (by omega) (by simpa using Nat.succ_lt_succ hjl)
              rw [List.getD_cons_succ] at this
              exact this
            have := occCount_eq_zero_of_all_open rest hall2
            omega
          | succ i2 =>
            have hall2 : ∀ j, i2 ≤ j → j < rest.length →
                entryIsOpen (rest.getD j Slot.empty) = true := by
              intro j hj hjl
              have := hall (j + 1) (by omega) (by simpa using Nat.succ_lt_succ hjl)
              rw [List.getD_cons_succ] at this
              exact this
            have hres := (ihi i2).2 hall2
            rw [List.getD_cons_succ, List.getD_cons_succ]
            exact hres
    cases s with
    | empty => exact openCase rfl
    | tombstone => exact openCase rfl
    | occupied e =>
      rw [occCount_cons_occ] at h
      subst h
      obtain ⟨ih2, ihlen, ihi⟩ := ih (occCount rest) rfl
      rw [clearLoop_cons_occ]
      refine ⟨ih2, by simp [ihlen], ?_⟩
      intro i
      constructor
      · rintro ⟨j, hij, hjlt, hbad⟩
        cases i with
        | zero => exact List.getD_cons_zero
        | succ i2 =>
          cases j with
          | zero => omega
          | succ j2 =>
            have h2 : j2 < rest.length := by simpa using hjlt
            have h3 : entryIsOpen (rest.getD j2 Slot.empty) = false := by
              rw [List.getD_cons_succ] at hbad; exact hbad
            have hres := (ihi i2).1 ⟨j2, by omega, h2, h3⟩
            rw [List.getD_cons_succ]
            exact hres
      · intro hall
        cases i with
        | zero =>
          exfalso
          have := hall 0 (Nat.zero_le 0) (by simp)
          rw [List.getD_cons_zero] at this
          simp [entryIsOpen] at this
        | succ i2 =>
          have hall2 : ∀ j, i2 ≤ j → j < rest.length →
              entryIsOpen (rest.getD j Slot.empty) = true := by
            intro j hj hjl
            have := hall (j + 1) (by omega) (by simpa using Nat.succ_lt_succ hjl)
            rw [List.getD_cons_succ] at this
            exact this
          have hres := (ihi i2).2 hall2
          rw [List.getD_cons_succ, List.getD_cons_succ]
          exact hres

/-! ### C10 -/

/-- C10 (confirmed): on a table whose live count matches its number of
occupied buckets, `hashmapClear` zeroes the live count and keeps the
bucket-array length, but only scans until the count reaches zero: every
slot at an index at or before the last occupied slot becomes empty, while
every slot strictly after the last occupied slot — tombstones included —
keeps its prior state. -/
theorem claim10_clear_scans_to_last_occupied (m : HashMap)
    (hcount : occCount (m.entries.take m.numBuckets) = m.length)
    (hlen : m.numBuckets ≤ m.entries.length) :
    ∃ m2, hashmapClear (some m) = some m2 ∧ m2.length = 0 ∧
      m2.numBuckets = m.numBuckets ∧ m2.entries.length = m.entries.length ∧
      ∀ i, ((∃ j, i ≤ j ∧ j < m.numBuckets ∧
               entryIsOpen (m.entries.getD j Slot.empty) = false) →
              m2.entries.getD i Slot.empty = Slot.empty) ∧
           ((∀ j, i ≤ j → j < m.numBuckets →
               entryIsOpen (m.entries.getD j Slot.empty) = true) →
              m2.entries.getD i Slot.empty = m.entries.getD i Slot.empty) := by
  have heslen : (m.entries.take m.numBuckets).length = m.numBuckets := by
    rw [List.length_take]; omega
  obtain ⟨h2, hlen2, hi⟩ := clearLoop_spec (m.entries.take m.numBuckets) m.length hcount
  refine ⟨_, rfl, h2, rfl, ?_, ?_⟩
  · show ((clearLoop m.length (m.entries.take m.numBuckets)).1 ++
        m.entries.drop m.numBuckets).length = m.entries.length
    rw [List.length_append, hlen2, heslen, List.length_drop]
    omega
  · intro i
    by_cases hin : i < m.numBuckets
    · have hleft : ((clearLoop m.length (m.entries.take m.numBuckets)).1 ++
          m.entries.drop m.numBuckets).getD i Slot.empty =
          (clearLoop m.length (m.entries.take m.numBuckets)).1.getD i Slot.empty :=
        getD_append_left _ _ i Slot.empty (by rw [hlen2, heslen]; exact hin)
      constructor
      · rintro ⟨j, hij, hjn, hopen⟩
        have hj2 : entryIsOpen ((m.entries.take m.numBuckets).getD j Slot.empty) = false := by
          rw [getD_take m.entries m.numBuckets j Slot.empty hjn]; exact hopen
        have := (hi i).1 ⟨j, hij, by rw [heslen]; exact hjn, hj2⟩
        show ((clearLoop m.length (m.entries.take m.numBuckets)).1 ++
            m.entries.drop m.numBuckets).getD i Slot.empty = Slot.empty
        rw [hleft]; exact this
      · intro hall
        have hall2 : ∀ j, i ≤ j → j < (m.entries.take m.numBuckets).length →
            entryIsOpen ((m.entries.take m.numBuckets).getD j Slot.empty) = true := by
          intro j hij hjl
          rw [heslen] at hjl
          rw [getD_take m.entries m.numBuckets j Slot.empty hjl]
          exact hall j hij hjl
        have := (hi i).2 hall2
        show ((clearLoop m.length (m.entries.take m.numBuckets)).1 ++
            m.entries.drop m.numBuckets).getD i Slot.empty = m.entries.getD i Slot.empty
        rw [hleft, this, getD_take m.entries m.numBuckets i Slot.empty hin]
    · constructor
      · rintro ⟨j, hij, hjn, _⟩
        omega
      · intro _
        show ((clearLoop m.length (m.entries.take m.numBuckets)).1 ++
            m.entries.drop m.numBuckets).getD i Slot.empty = m.entries.getD i Slot.empty
        rw [getD_append_right _ _ i Slot.empty (by rw [hlen2, heslen]; omega),
          hlen2, heslen, getD_drop]
        have harith : m.numBuckets + (i - m.numBuckets) = i := by omega
        rw [harith]

/-- Witness for C10: clearing `c10map` (occupied buckets 0 and 2, tombstones
at 1 and 3) empties buckets 0–2 but leaves the trailing tombstone at index 3
untouched. -/
theorem claim10_witness :
    (occCount (c10map.entries.take c10map.numBuckets) = c10map.length ∧
     c10map.numBuckets ≤ c10map.entries.length) ∧
    (∃ m2, hashmapClear (some c10map) = some m2 ∧ m2.length = 0 ∧
      m2.numBuckets = c10map.numBuckets ∧ m2.entries.length = c10map.entries.length ∧
      ∀ i, ((∃ j, i ≤ j ∧ j < c10map.numBuckets ∧
               entryIsOpen (c10map.entries.getD j Slot.empty) = false) →
              m2.entries.getD i Slot.empty = Slot.empty) ∧
           ((∀ j, i ≤ j → j < c10map.numBuckets →
               entryIsOpen (c10map.entries.getD j Slot.empty) = true) →
              m2.entries.getD i Slot.empty = c10map.entries.getD i Slot.empty)) :=
  ⟨⟨by decide, by decide⟩,
   claim10_clear_scans_to_last_occupied c10map (by decide) (by decide)⟩

/-! ### Probe-sequence lemmas -/

/-- A probe result is a valid bucket index. -/
lemma findSlotAux_lt (entries : List Slot) (n : Nat) (h : Int) :
    ∀ (fuel i r : Nat), i < n → findSlotAux entries n h fuel i = some r → r < n := by
  intro fuel
  induction fuel with
  | zero => intro i r _ hfind; cases hfind
  | succ fuel ih =>
    intro i r hi hfind
    rw [findSlotAux] at hfind
    by_cases hs : slotStops (entries.getD i Slot.empty) h = true
    · rw [if_pos hs] at hfind
      cases hfind
      exact hi
    · rw [if_neg hs] at hfind
      exact ih ((i + 1) % n) r (Nat.mod_lt _ (by omega)) hfind

/-- The probe stops only on a stopping slot. -/
lemma findSlotAux_stops (entries : List Slot) (n : Nat) (h : Int) :
    ∀ (fuel i r : Nat), findSlotAux entries n h fuel i = some r →
      slotStops (entries.getD r Slot.empty) h = true := by
  intro fuel
  induction fuel with
  | zero => intro i r hfind; cases hfind
  | succ fuel ih =>
    intro i r hfind
    rw [findSlotAux] at hfind
    by_cases hs : slotStops (entries.getD i Slot.empty) h = true
    · rw [if_pos hs] at hfind
      cases hfind
      exact hs
    · rw [if_neg hs] at hfind
      exact ih ((i + 1) % n) r hfind

/-- Stability of the probe result under modifying the array: if the probe on
`a` returns `r`, and in `a2` slot `r` still stops while every other stopping
slot of `a2` already stopped in `a`, the probe on `a2` returns `r` too. -/
lemma findSlotAux_stable (a a2 : List Slot) (n : Nat) (h : Int) (r : Nat)
    (hstop : slotStops (a2.getD r Slot.empty) h = true)
    (hsub : ∀ j, slotStops (a2.getD j Slot.empty) h = true →
       slotStops (a.getD j Slot.empty) h = true ∨ j = r) :
    ∀ (fuel i : Nat), findSlotAux a n h fuel i = some r →
      findSlotAux a2 n h fuel i = some r := by
  intro fuel
  induction fuel with
  | zero => intro i hfind; cases hfind
  | succ fuel ih =>
    intro i hfind
    have hstopsr : slotStops (a.getD r Slot.empty) h = true :=
      findSlotAux_stops a n h (fuel + 1) i r hfind
    rw [findSlotAux] at hfind
    by_cases hs : slotStops (a.getD i Slot.empty) h = true
    · rw [if_pos hs] at hfind
      cases hfind
      rw [findSlotAux, if_pos hstop]
    · rw [if_neg hs] at hfind
      have hir : i ≠ r := by
        intro heq
        rw [heq] at hs
        exact hs hstopsr
      have hs2 : ¬ slotStops (a2.getD i Slot.empty) h = true := by
        intro habs
        rcases hsub i habs with hA | hR
        · exact hs hA
        · exact hir hR
      rw [findSlotAux, if_neg hs2]
      exact ih ((i + 1) % n) hfind

/-- Termination of the probe: if some slot within `fuel` steps of the start
stops, the probe returns an index. -/
lemma findSlotAux_term (entries : List Slot) (n : Nat) (h : Int) :
    ∀ (fuel i t : Nat), t < fuel → i < n →
      slotStops (entries.getD ((i + t) % n) Slot.empty) h = true →
      ∃ r, findSlotAux entries n h fuel i = some r := by
  intro fuel
  induction fuel with
  | zero => intro i t ht _ _; omega
  | succ fuel ih =>
    intro i t ht hi hstop
    by_cases hs : slotStops (entries.getD i Slot.empty) h = true
    · exact ⟨i, by rw [findSlotAux, if_pos hs]⟩
    · have ht0 : t ≠ 0 := by
        intro h0
        subst h0
        rw [Nat.add_zero, Nat.mod_eq_of_lt hi] at hstop
        exact hs hstop
      obtain ⟨t2, rfl⟩ : ∃ t2, t = t2 + 1 := ⟨t - 1, by omega⟩
      have hstep : ((i + 1) % n + t2) % n = (i + (t2 + 1)) % n := by
        rw [Nat.mod_add_mod]
        congr 1
        omega
      have hstop2 : slotStops (entries.getD (((i + 1) % n + t2) % n) Slot.empty) h = true := by
        rw [hstep]
        exact hstop
      obtain ⟨r, hr⟩ := ih ((i + 1) % n) t2 (by omega) (Nat.mod_lt _ (by omega)) hstop2
      exact ⟨r, by rw [findSlotAux, if_neg hs]; exact hr⟩

/-- Every residue below `n` is reached from any start below `n` in fewer than
`n` steps, so a stopping slot below `n` guarantees probe termination. -/
lemma findSlotEntries_some (a : List Slot) (n : Nat) (h : Int) (j : Nat)
    (hn : 0 < n) (hj : j < n)
    (hstop : slotStops (a.getD j Slot.empty) h = true) :
    ∃ r, findSlotEntries a n h = some r := by
  have hs : h.natAbs % n < n := Nat.mod_lt _ hn
  by_cases hsj : h.natAbs % n ≤ j
  · have harith : h.natAbs % n + (j - h.natAbs % n) = j := by omega
    refine findSlotAux_term a n h n (h.natAbs % n) (j - h.natAbs % n) (by omega) hs ?_
    rw [harith, Nat.mod_eq_of_lt hj]
    exact hstop
  · have harith : h.natAbs % n + (n + j - h.natAbs % n) = n + j := by omega
    refine findSlotAux_term a n h n (h.natAbs % n) (n + j - h.natAbs % n) (by omega) hs ?_
    rw [harith, Nat.add_mod_left, Nat.mod_eq_of_lt hj]
    exact hstop

/-! ### Occupied entries, membership and permutations -/

lemma occEntries_mem_iff (a : List Slot) (e : HashEntry) :
    e ∈ occEntries a ↔ Slot.occupied e ∈ a := by
  induction a with
  | nil => simp [occEntries]
  | cons s rest ih =>
    cases s with
    | empty =>
      rw [occEntries_cons_open Slot.empty rest rfl]
      simp [ih]
    | tombstone =>
      rw [occEntries_cons_open Slot.tombstone rest rfl]
      simp [ih]
    | occupied e2 =>
      rw [occEntries_cons_occ]
      simp [ih]

lemma getD_mem (a : List Slot) (i : Nat) (hi : i < a.length) :
    a.getD i Slot.empty ∈ a := by
  rw [List.getD_eq_getElem?_getD, List.getElem?_eq_getElem hi]
  exact List.getElem_mem hi

lemma occupied_mem_of_getD (a : List Slot) (i : Nat) (e : HashEntry) (hi : i < a.length)
    (h : a.getD i Slot.empty = Slot.occupied e) : e ∈ occEntries a := by
  rw [occEntries_mem_iff, ← h]
  exact getD_mem a i hi

lemma noTomb_replicate (n : Nat) : noTomb (List.replicate n Slot.empty) := by
  intro s hs
  rw [List.eq_of_mem_replicate hs]
  simp

lemma noTomb_set_occ (a : List Slot) (r : Nat) (e : HashEntry) (h : noTomb a) :
    noTomb (a.set r (Slot.occupied e)) := by
  intro s hs
  rcases List.mem_or_eq_of_mem_set hs with hmem | heq
  · exact h s hmem
  · subst heq; simp

lemma occCount_replicate (n : Nat) : occCount (List.replicate n Slot.empty) = 0 := by
  induction n with
  | zero => rfl
  | succ n ih =>
    rw [List.replicate_succ, occCount_cons_open Slot.empty _ rfl]
    exact ih

lemma exists_empty_slot :
    ∀ (a : List Slot), noTomb a → occCount a < a.length →
      ∃ j, j < a.length ∧ a.getD j Slot.empty = Slot.empty := by
  intro a
  induction a with
  | nil =>
    intro _ h
    simp [occCount, occEntries] at h
  | cons s rest ih =>
    intro hnt hlt
    cases s with
    | empty => exact ⟨0, by simp, rfl⟩
    | tombstone => exact absurd rfl (hnt Slot.tombstone (by simp))
    | occupied e =>
      have h2 : occCount rest < rest.length := by
        rw [occCount_cons_occ] at hlt
        simpa using hlt
      obtain ⟨j, hj, he⟩ := ih (fun s hs => hnt s (List.mem_cons_of_mem _ hs)) h2
      exact ⟨j + 1, by simpa using Nat.succ_lt_succ hj, by rw [List.getD_cons_succ]; exact he⟩

lemma occEntries_set_perm :
    ∀ (a : List Slot) (r : Nat) (e : HashEntry), r < a.length →
      a.getD r Slot.empty = Slot.empty →
      List.Perm (occEntries (a.set r (Slot.occupied e))) (e :: occEntries a) := by
  intro a
  induction a with
  | nil => intro r e hr _; simp at hr
  | cons s rest ih =>
    intro r e hr hempty
    cases r with
    | zero =>
      rw [List.getD_cons_zero] at hempty
      subst hempty
      rw [show (Slot.empty :: rest).set 0 (Slot.occupied e) = Slot.occupied e :: rest from rfl,
        occEntries_cons_occ, occEntries_cons_open Slot.empty rest rfl]
    | succ r2 =>
      have hr2 : r2 < rest.length := by simpa using hr
      rw [List.getD_cons_succ] at hempty
      have hperm := ih r2 e hr2 hempty
      rw [show (s :: rest).set (r2 + 1) (Slot.occupied e) = s :: rest.set r2 (Slot.occupied e)
        from rfl]
      cases s with
      | empty =>
        rw [occEntries_cons_open Slot.empty _ rfl, occEntries_cons_open Slot.empty rest rfl]
        exact hperm
      | tombstone =>
        rw [occEntries_cons_open Slot.tombstone _ rfl,
          occEntries_cons_open Slot.tombstone rest rfl]
        exact hperm
      | occupied e2 =>
        rw [occEntries_cons_occ, occEntries_cons_occ]
        exact (hperm.cons e2).trans (List.Perm.swap e e2 _)

/-! ### Placement and retrieval -/

/-- A probe slot that stops for a hash held by no real entry, in a
tombstone-free array, must be empty. -/
lemma stop_slot_empty (a : List Slot) (h : Int) (r : Nat)
    (hnt : noTomb a) (hr : r < a.length)
    (hstops : slotStops (a.getD r Slot.empty) h = true)
    (hfresh : ∀ e ∈ occEntries a, e.hash ≠ h) :
    a.getD r Slot.empty = Slot.empty := by
  cases hslot : a.getD r Slot.empty with
  | empty => rfl
  | tombstone =>
    exfalso
    have := hnt (a.getD r Slot.empty) (getD_mem a r hr)
    rw [hslot] at this
    exact this rfl
  | occupied e =>
    exfalso
    rw [hslot] at hstops
    have hhash : e.hash = h := by simpa [slotStops, slotHash] using hstops
    exact hfresh e (occupied_mem_of_getD a r e hr hslot) hhash

/-- The entry just placed at its probe slot is retrievable. -/
lemma retrievable_inserted (a : List Slot) (n r : Nat) (eNew : HashEntry)
    (hfind : findSlotEntries a n eNew.hash = some r) (hr : r < a.length) :
    retrievable (a.set r (Slot.occupied eNew)) n eNew := by
  refine ⟨r, ?_, getD_set_self a r _ Slot.empty hr⟩
  show findSlotAux (a.set r (Slot.occupied eNew)) n eNew.hash n (eNew.hash.natAbs % n) = some r
  refine findSlotAux_stable a _ n eNew.hash r ?_ ?_ n (eNew.hash.natAbs % n) hfind
  · rw [getD_set_self a r _ Slot.empty hr]
    simp [slotStops, slotHash]
  · intro j hj
    by_cases hjr : j = r
    · exact Or.inr hjr
    · left
      rw [getD_set_ne a r j _ Slot.empty (fun hh => hjr hh.symm)] at hj
      exact hj

/-- Placing an entry at its probe slot does not disturb the retrievability of
any entry with a different hash. -/
lemma retrievable_preserved (a : List Slot) (n r : Nat) (eNew e : HashEntry)
    (hfind : findSlotEntries a n eNew.hash = some r) (hr : r < a.length)
    (hne : e.hash ≠ eNew.hash)
    (hret : retrievable a n e) :
    retrievable (a.set r (Slot.occupied eNew)) n e := by
  obtain ⟨i, hfi, hsi⟩ := hret
  have hstopsi : slotStops (a.getD i Slot.empty) e.hash = true :=
    findSlotAux_stops a n e.hash n _ i hfi
  have hir : i ≠ r := by
    intro heq
    have hstopr : slotStops (a.getD r Slot.empty) eNew.hash = true :=
      findSlotAux_stops a n eNew.hash n _ r hfind
    rw [← heq, hsi] at hstopr
    have : e.hash = eNew.hash := by simpa [slotStops, slotHash] using hstopr
    exact hne this
  refine ⟨i, ?_, ?_⟩
  · show findSlotAux (a.set r (Slot.occupied eNew)) n e.hash n (e.hash.natAbs % n) = some i
    refine findSlotAux_stable a _ n e.hash i ?_ ?_ n (e.hash.natAbs % n) hfi
    · rw [getD_set_ne a r i _ Slot.empty (fun hh => hir hh.symm)]
      exact hstopsi
    · intro j hj
      by_cases hjr : j = r
      · subst hjr
        rw [getD_set_self a j _ Slot.empty hr] at hj
        have : eNew.hash = e.hash := by simpa [slotStops, slotHash] using hj
        exact (hne this.symm).elim
      · left
        rw [getD_set_ne a r j _ Slot.empty (fun hh => hjr hh.symm)] at hj
        exact hj
  · rw [getD_set_ne a r i _ Slot.empty (fun hh => hir hh.symm)]
    exact hsi

/-- `hashmapGet` on a retrievable entry's key answers its stored value. -/
lemma hashmapGet_of_retrievable (m2 : HashMap) (e : HashEntry)
    (hhash : m2.hash e.key = e.hash)
    (hret : retrievable m2.entries m2.numBuckets e) :
    hashmapGet (some m2) (some e.key) = Res.val e.value := by
  obtain ⟨i, hfind, hslot⟩ := hret
  have hgi : hashmapGetIndex m2 e.key = some (some i) := by
    rw [hashmapGetIndex, findSlotMap, hhash, hfind]
    show (if entryIsOpen (m2.entries.getD i Slot.empty) = true then some none
      else some (some i)) = some (some i)
    rw [hslot]
    rfl
  rw [hashmapGet, hgi]
  show Res.val (slotValue (m2.entries.getD i Slot.empty)) = Res.val e.value
  rw [hslot]
  rfl

/-! ### The resize reinsertion loop -/

lemma resizeCopy_nil (newN : Nat) (A : List Slot) (copied len : Nat) :
    resizeCopy newN [] A copied len = some A := rfl

lemma resizeCopy_cons_stop (newN : Nat) (s : Slot) (rest A : List Slot) (copied len : Nat)
    (hc : ¬ copied < len) :
    resizeCopy newN (s :: rest) A copied len = some A := by
  cases s with
  | empty =>
    rw [resizeCopy, if_neg hc]
    intro e2 hx
    cases hx
  | tombstone =>
    rw [resizeCopy, if_neg hc]
    intro e2 hx
    cases hx
  | occupied e => rw [resizeCopy, if_neg hc]

lemma resizeCopy_cons_open (newN : Nat) (s : Slot) (rest A : List Slot) (copied len : Nat)
    (hs : entryIsOpen s = true) (hc : copied < len) :
    resizeCopy newN (s :: rest) A copied len = resizeCopy newN rest A copied len := by
  cases s with
  | empty =>
    rw [resizeCopy, if_pos hc]
    intro e2 hx
    cases hx
  | tombstone =>
    rw [resizeCopy, if_pos hc]
    intro e2 hx
    cases hx
  | occupied e => simp [entryIsOpen] at hs

lemma resizeCopy_cons_occ_none (newN : Nat) (e : HashEntry) (rest A : List Slot)
    (copied len : Nat) (hc : copied < len)
    (hins : hashmapInsertEntries A newN e = none) :
    resizeCopy newN (Slot.occupied e :: rest) A copied len = none := by
  rw [resizeCopy, if_pos hc, hins]

lemma resizeCopy_cons_occ_some (newN : Nat) (e : HashEntry) (rest A : List Slot)
    (copied len : Nat) (hc : copied < len) (p : Bool × List Slot)
    (hins : hashmapInsertEntries A newN e = some p) :
    resizeCopy newN (Slot.occupied e :: rest) A copied len =
      resizeCopy newN rest p.2 (copied + 1) len := by
  rw [resizeCopy, if_pos hc, hins]

lemma resizeCopy_length (newN : Nat) :
    ∀ (old A : List Slot) (copied len : Nat) (A2 : List Slot),
      resizeCopy newN old A copied len = some A2 → A2.length = A.length := by
  intro old
  induction old with
  | nil =>
    intro A copied len A2 h
    rw [resizeCopy_nil] at h
    cases h
    rfl
  | cons s rest ih =>
    intro A copied len A2 h
    by_cases hc : copied < len
    · cases s with
      | empty =>
        rw [resizeCopy_cons_open newN Slot.empty rest A copied len rfl hc] at h
        exact ih A copied len A2 h
      | tombstone =>
        rw [resizeCopy_cons_open newN Slot.tombstone rest A copied len rfl hc] at h
        exact ih A copied len A2 h
      | occupied e =>
        cases hins : hashmapInsertEntries A newN e with
        | none =>
          rw [resizeCopy_cons_occ_none newN e rest A copied len hc hins] at h
          cases h
        | some p =>
          rw [resizeCopy_cons_occ_some newN e rest A copied len hc p hins] at h
          have hlen := ih p.2 (copied + 1) len A2 h
          rw [hashmapInsertEntries] at hins
          cases hf : findSlotEntries A newN e.hash with
          | none => rw [hf] at hins; cases hins
          | some i =>
            rw [hf] at hins
            cases hins
            rw [hlen]
            exact List.length_set A i _
    · rw [resizeCopy_cons_stop newN s rest A copied len hc] at h
      cases h
      rfl

/-- Main invariant of the resize reinsertion loop.  Starting from a
tombstone-free array `A` of length `newN` with `copied` occupied slots, and
feeding it the occupied entries of `old` (pairwise distinct hashes, disjoint
from those already placed), the loop succeeds and produces an array holding
exactly the old and the already-placed entries, all retrievable. -/
lemma resizeCopy_ok (newN : Nat) :
    ∀ (old : List Slot), ∀ (A : List Slot) (copied len : Nat),
      A.length = newN → 0 < newN → noTomb A →
      len = copied + occCount old →
      len < newN →
      occCount A = copied →
      List.Pairwise (fun a b => a.hash ≠ b.hash) (occEntries old) →
      (∀ e ∈ occEntries A, ∀ e2 ∈ occEntries old, e.hash ≠ e2.hash) →
      ∃ A2, resizeCopy newN old A copied len = some A2 ∧
        A2.length = newN ∧ noTomb A2 ∧
        List.Perm (occEntries A2) (occEntries old ++ occEntries A) ∧
        (∀ e, retrievable A newN e →
           (∀ e2 ∈ occEntries old, e.hash ≠ e2.hash) → retrievable A2 newN e) ∧
        (∀ e ∈ occEntries old, retrievable A2 newN e) := by
  intro old
  induction old with
  | nil =>
    intro A copied len hAlen hn hnt _ _ _ _ _
    refine ⟨A, rfl, hAlen, hnt, List.Perm.refl _, ?_, ?_⟩
    · intro e hret _
      exact hret
    · intro e he
      exact absurd he (List.not_mem_nil e)
  | cons s rest ih =>
    intro A copied len hAlen hn hnt hlen hltN hocc hpw hdisj
    by_cases hc : copied < len
    · cases s with
      | empty =>
        have hlen2 : len = copied + occCount rest := by
          rw [occCount_cons_open Slot.empty rest rfl] at hlen
          exact hlen
        rw [occEntries_cons_open Slot.empty rest rfl] at hpw hdisj
        obtain ⟨A2, hrun, hl2, hnt2, hperm2, hpres2, hall2⟩ :=
          ih A copied len hAlen hn hnt hlen2 hltN hocc hpw hdisj
        refine ⟨A2, ?_, hl2, hnt2, ?_, ?_, ?_⟩
        · rw [resizeCopy_cons_open newN Slot.empty rest A copied len rfl hc]
          exact hrun
        · rw [occEntries_cons_open Slot.empty rest rfl]
          exact hperm2
        · intro e hret hfresh
          rw [occEntries_cons_open Slot.empty rest rfl] at hfresh
          exact hpres2 e hret hfresh
        · intro e he
          rw [occEntries_cons_open Slot.empty rest rfl] at he
          exact hall2 e he
      | tombstone =>
        have hlen2 : len = copied + occCount rest := by
          rw [occCount_cons_open Slot.tombstone rest rfl] at hlen
          exact hlen
        rw [occEntries_cons_open Slot.tombstone rest rfl] at hpw hdisj
        obtain ⟨A2, hrun, hl2, hnt2, hperm2, hpres2, hall2⟩ :=
          ih A copied len hAlen hn hnt hlen2 hltN hocc hpw hdisj
        refine ⟨A2, ?_, hl2, hnt2, ?_, ?_, ?_⟩
        · rw [resizeCopy_cons_open newN Slot.tombstone rest A copied len rfl hc]
          exact hrun
        · rw [occEntries_cons_open Slot.tombstone rest rfl]
          exact hperm2
        · intro e hret hfresh
          rw [occEntries_cons_open Slot.tombstone rest rfl] at hfresh
          exact hpres2 e hret hfresh
        · intro e he
          rw [occEntries_cons_open Slot.tombstone rest rfl] at he
          exact hall2 e he
      | occupied e0 =>
        rw [occEntries_cons_occ] at hpw hdisj
        have hlen2 : len = copied + occCount rest + 1 := by
          rw [occCount_cons_occ] at hlen
          omega
        obtain ⟨hpairhd, hpwrest⟩ := List.pairwise_cons.mp hpw
        have hoccA : occCount A < A.length := by
          rw [hAlen]
          omega
        obtain ⟨j, hj, hje⟩ := exists_empty_slot A hnt hoccA
        have hstopj : slotStops (A.getD j Slot.empty) e0.hash = true := by
          rw [hje]
          rfl
        obtain ⟨r, hfind⟩ :=
          findSlotEntries_some A newN e0.hash j hn (by rw [← hAlen]; exact hj) hstopj
        have hr : r < newN :=
          findSlotAux_lt A newN e0.hash newN _ r (Nat.mod_lt _ hn) hfind
        have hrA : r < A.length := by rw [hAlen]; exact hr
        have hfreshA : ∀ e ∈ occEntries A, e.hash ≠ e0.hash := by
          intro e he
          exact hdisj e he e0 (List.mem_cons_self _ _)
        have hrempty : A.getD r Slot.empty = Slot.empty :=
          stop_slot_empty A e0.hash r hnt hrA
            (findSlotAux_stops A newN e0.hash newN _ r hfind) hfreshA
        have hins : hashmapInsertEntries A newN e0 =
            some (entryIsOpen (A.getD r Slot.empty), A.set r (Slot.occupied e0)) := by
          rw [hashmapInsertEntries, hfind]
        have hpermA2 : List.Perm (occEntries (A.set r (Slot.occupied e0)))
            (e0 :: occEntries A) := occEntries_set_perm A r e0 hrA hrempty
        have hA2len : (A.set r (Slot.occupied e0)).length = newN := by
          rw [List.length_set]
          exact hAlen
        have hA2nt : noTomb (A.set r (Slot.occupied e0)) := noTomb_set_occ A r e0 hnt
        have hA2occ : occCount (A.set r (Slot.occupied e0)) = copied + 1 := by
          have h1 : (occEntries (A.set r (Slot.occupied e0))).length =
              (e0 :: occEntries A).length := hpermA2.length_eq
          rw [List.length_cons] at h1
          unfold occCount at hocc ⊢
          omega
        have hdisj2 : ∀ e ∈ occEntries (A.set r (Slot.occupied e0)),
            ∀ e2 ∈ occEntries rest, e.hash ≠ e2.hash := by
          intro e he e2 he2
          rcases List.mem_cons.mp (hpermA2.mem_iff.mp he) with heq | hmem
          · rw [heq]
            exact hpairhd e2 he2
          · exact hdisj e hmem e2 (List.mem_cons_of_mem _ he2)
        obtain ⟨A2, hrun, hl2, hnt2, hperm2, hpres2, hall2⟩ :=
          ih (A.set r (Slot.occupied e0)) (copied + 1) len hA2len hn hA2nt
            (by omega) hltN hA2occ hpwrest hdisj2
        refine ⟨A2, ?_, hl2, hnt2, ?_, ?_, ?_⟩
        · rw [resizeCopy_cons_occ_some newN e0 rest A copied len hc _ hins]
          exact hrun
        · rw [occEntries_cons_occ]
          exact hperm2.trans ((List.Perm.append_left _ hpermA2).trans List.perm_middle)
        · intro e hret hfresh
          rw [occEntries_cons_occ] at hfresh
          have hne : e.hash ≠ e0.hash := hfresh e0 (List.mem_cons_self _ _)
          have hret2 : retrievable (A.set r (Slot.occupied e0)) newN e :=
            retrievable_preserved A newN r e0 e hfind hrA hne hret
          refine hpres2 e hret2 ?_
          intro e2 he2
          exact hfresh e2 (List.mem_cons_of_mem _ he2)
        · intro e he
          rw [occEntries_cons_occ] at he
          rcases List.mem_cons.mp he with heq | he2
          · rw [heq]
            have hret0 : retrievable (A.set r (Slot.occupied e0)) newN e0 :=
              retrievable_inserted A newN r e0 hfind hrA
            refine hpres2 e0 hret0 ?_
            intro e2 he2
            exact hpairhd e2 he2
          · exact hall2 e he2
    · have hocc0 : occCount (s :: rest) = 0 := by omega
      have hoccE : occEntries (s :: rest) = [] := by
        have h2 := hocc0
        unfold occCount at h2
        exact List.length_eq_zero.mp h2
      refine ⟨A, resizeCopy_cons_stop newN s rest A copied len hc, hAlen, hnt, ?_, ?_, ?_⟩
      · rw [hoccE]
        exact List.Perm.refl _
      · intro e hret _
        exact hret
      · intro e he
        rw [hoccE] at he
        exact absurd he (List.not_mem_nil e)

lemma occEntries_replicate (n : Nat) : occEntries (List.replicate n Slot.empty) = [] :=
  List.length_eq_zero.mp (occCount_replicate n)

/-- `_hashmapResize` on a well-formed table succeeds, grows the bucket count
by the modelled factor, drops all tombstones, keeps exactly the previous
entries (as a permutation), stays well-formed, and leaves every previous entry
retrievable. -/
lemma hashmapResize_ok (m : HashMap) (hwf : tableWellFormed m) :
    ∃ m2, hashmapResize m true = ResizeResult.ok m2 ∧
      m2.numBuckets = m.numBuckets * (if HASHMAP_IS_LARGE m then 2 else 4) ∧
      m2.entries.length = m2.numBuckets ∧
      m2.length = m.length ∧
      m2.hash = m.hash ∧
      m.length < m2.numBuckets ∧
      noTomb m2.entries ∧
      List.Perm (occEntries m2.entries) (occEntries (m.entries.take m.numBuckets)) ∧
      tableWellFormed m2 ∧
      (∀ e ∈ occEntries (m.entries.take m.numBuckets),
        retrievable m2.entries m2.numBuckets e) := by
  obtain ⟨hpos, hble, hcnt, hpw, hhash⟩ := hwf
  have h24 : 0 < (if HASHMAP_IS_LARGE m then 2 else 4) := by split <;> omega
  have h24b : 2 ≤ (if HASHMAP_IS_LARGE m then 2 else 4) := by split <;> omega
  have hnN : 0 < m.numBuckets * (if HASHMAP_IS_LARGE m then 2 else 4) :=
    Nat.mul_pos hpos h24
  have hbig : m.numBuckets < m.numBuckets * (if HASHMAP_IS_LARGE m then 2 else 4) := by
    have h1 := Nat.mul_le_mul_left m.numBuckets h24b
    omega
  have hltN : m.length < m.numBuckets * (if HASHMAP_IS_LARGE m then 2 else 4) := by
    have h1 : occCount (m.entries.take m.numBuckets) ≤
        (m.entries.take m.numBuckets).length := List.length_filterMap_le _ _
    have h2 : (m.entries.take m.numBuckets).length ≤ m.numBuckets := by
      rw [List.length_take]
      omega
    omega
  have hdisj0 : ∀ e ∈ occEntries (List.replicate
      (m.numBuckets * (if HASHMAP_IS_LARGE m then 2 else 4)) Slot.empty),
      ∀ e2 ∈ occEntries (m.entries.take m.numBuckets), e.hash ≠ e2.hash := by
    intro e he
    rw [occEntries_replicate] at he
    exact absurd he (List.not_mem_nil e)
  obtain ⟨A2, hrun, hl2, hnt2, hperm2, _, hall2⟩ :=
    resizeCopy_ok (m.numBuckets * (if HASHMAP_IS_LARGE m then 2 else 4))
      (m.entries.take m.numBuckets)
      (List.replicate (m.numBuckets * (if HASHMAP_IS_LARGE m then 2 else 4)) Slot.empty)
      0 m.length
      (List.length_replicate _ _) hnN (noTomb_replicate _)
      (by rw [Nat.zero_add]; exact hcnt) hltN (occCount_replicate _) hpw hdisj0
  rw [occEntries_replicate, List.append_nil] at hperm2
  have hocc2 : occCount A2 = m.length := by
    unfold occCount
    rw [hperm2.length_eq]
    exact hcnt.symm
  refine ⟨HashMap.mk A2 m.length (m.numBuckets * (if HASHMAP_IS_LARGE m then 2 else 4))
      m.hash,
    ?_, rfl, hl2, rfl, rfl, hltN, hnt2, hperm2, ?_, ?_⟩
  · simp only [hashmapResize]
    rw [hrun]
    simp
  · have htake : A2.take (m.numBuckets * (if HASHMAP_IS_LARGE m then 2 else 4)) = A2 :=
      List.take_of_length_le (le_of_eq hl2)
    refine ⟨hnN, le_of_eq hl2.symm, ?_, ?_, ?_⟩
    · show m.length = occCount (A2.take _)
      rw [htake, hocc2]
    · show List.Pairwise _ (occEntries (A2.take _))
      rw [htake]
      refine (hperm2.pairwise_iff ?_).mpr hpw
      intro a b hab hba
      exact hab hba.symm
    · intro e he
      rw [htake] at he
      exact hhash e (hperm2.mem_iff.mp he)
  · intro e he
    exact hall2 e he

/-! ### C6 -/

/-- C6 (confirmed): on a well-formed table whose next insert triggers a
resize, the resize succeeds and multiplies the bucket count by 4 below the
large threshold (65536) and by 2 at or above it; every live entry of the old
array is re-inserted (the new array holds exactly the old live entries, as a
permutation) while tombstones are dropped (the new array has none); and after
the triggering insert completes, every previously stored entry whose hash
differs from the inserted key's hash — i.e. every previously inserted key in
the hash-as-identity regime — is still retrievable with its value. -/
theorem claim6_resize_grows_and_preserves_membership (m : HashMap) (k : Key) (v : Option Nat)
    (hwf : tableWellFormed m) (htrig : hashmapNeedsResize m = true) :
    ∃ m2 mf, hashmapResize m true = ResizeResult.ok m2 ∧
      m2.numBuckets = (if m.numBuckets < HASHMAP_LARGE_SIZE then m.numBuckets * 4
        else m.numBuckets * 2) ∧
      noTomb m2.entries ∧
      List.Perm (occEntries m2.entries) (occEntries (m.entries.take m.numBuckets)) ∧
      (∀ e ∈ occEntries (m.entries.take m.numBuckets),
        hashmapGet (some m2) (some e.key) = Res.val e.value) ∧
      hashmapInsert (some m) (some k) v true true = InsertResult.result true (some mf) ∧
      mf.numBuckets = m2.numBuckets ∧
      (∀ e ∈ occEntries (m.entries.take m.numBuckets), e.hash ≠ m.hash k →
        hashmapGet (some mf) (some e.key) = Res.val e.value) := by
  obtain ⟨m2, hres, hnum, hlen2, hl, hh, hlt, hnt2, hperm2, hwf2, hall2⟩ :=
    hashmapResize_ok m hwf
  have hpos2 : 0 < m2.numBuckets := hwf2.1
  have hocc2 : occCount m2.entries < m2.entries.length := by
    have htake : m2.entries.take m2.numBuckets = m2.entries :=
      List.take_of_length_le (le_of_eq hlen2)
    have h1 := hwf2.2.2.1
    rw [htake] at h1
    rw [hlen2]
    omega
  obtain ⟨j, hj, hje⟩ := exists_empty_slot m2.entries hnt2 hocc2
  have hstopj : slotStops (m2.entries.getD j Slot.empty) (m2.hash k) = true := by
    rw [hje]
    rfl
  obtain ⟨r, hfind⟩ := findSlotEntries_some m2.entries m2.numBuckets (m2.hash k) j hpos2
    (by rw [← hlen2]; exact hj) hstopj
  have hr : r < m2.numBuckets :=
    findSlotAux_lt m2.entries m2.numBuckets (m2.hash k) m2.numBuckets _ r
      (Nat.mod_lt _ hpos2) hfind
  have hrA : r < m2.entries.length := by rw [hlen2]; exact hr
  have hins : hashmapInsertEntries m2.entries m2.numBuckets (HashEntry.mk (m2.hash k) k v) =
      some (entryIsOpen (m2.entries.getD r Slot.empty),
        m2.entries.set r (Slot.occupied (HashEntry.mk (m2.hash k) k v))) := by
    rw [hashmapInsertEntries]
    rw [show (HashEntry.mk (m2.hash k) k v).hash = m2.hash k from rfl, hfind]
  refine ⟨m2, HashMap.mk (m2.entries.set r (Slot.occupied (HashEntry.mk (m2.hash k) k v)))
      (m2.length + (if entryIsOpen (m2.entries.getD r Slot.empty) then 1 else 0))
      m2.numBuckets m2.hash, hres, ?_, hnt2, hperm2, ?_, ?_, rfl, ?_⟩
  · rw [hnum]
    by_cases hL : HASHMAP_LARGE_SIZE ≤ m.numBuckets
    · have hb : HASHMAP_IS_LARGE m = true := by
        simp [HASHMAP_IS_LARGE]
        omega
      simp only [hb, if_true]
      rw [if_neg (by omega : ¬ m.numBuckets < HASHMAP_LARGE_SIZE)]
    · have hb : HASHMAP_IS_LARGE m = false := by
        simp [HASHMAP_IS_LARGE]
        omega
      simp only [hb, Bool.false_eq_true, if_false]
      rw [if_pos (by omega : m.numBuckets < HASHMAP_LARGE_SIZE)]
  · intro e he
    refine hashmapGet_of_retrievable m2 e ?_ (hall2 e he)
    rw [hh]
    exact hwf.2.2.2.2 e he
  · simp only [hashmapInsert, htrig, if_true, hres, hins]
    simp
  · intro e he hneq
    have hne2 : e.hash ≠ (HashEntry.mk (m2.hash k) k v).hash := by
      rw [show (HashEntry.mk (m2.hash k) k v).hash = m2.hash k from rfl, hh]
      exact hneq
    have hret2 := retrievable_preserved m2.entries m2.numBuckets r
      (HashEntry.mk (m2.hash k) k v) e hfind hrA hne2 (hall2 e he)
    refine hashmapGet_of_retrievable _ e ?_ hret2
    show m2.hash e.key = e.hash
    rw [hh]
    exact hwf.2.2.2.2 e he

/-- Witness for C6: a full table (3 of 4 buckets) under the identity hash;
inserting key 5 triggers a resize to 16 buckets. -/
theorem claim6_witness :
    (tableWellFormed w6map ∧ hashmapNeedsResize w6map = true) ∧
    (∃ m2 mf, hashmapResize w6map true = ResizeResult.ok m2 ∧
      m2.numBuckets = (if w6map.numBuckets < HASHMAP_LARGE_SIZE then w6map.numBuckets * 4
        else w6map.numBuckets * 2) ∧
      noTomb m2.entries ∧
      List.Perm (occEntries m2.entries) (occEntries (w6map.entries.take w6map.numBuckets)) ∧
      (∀ e ∈ occEntries (w6map.entries.take w6map.numBuckets),
        hashmapGet (some m2) (some e.key) = Res.val e.value) ∧
      hashmapInsert (some w6map) (some 5) (some 15) true true =
        InsertResult.result true (some mf) ∧
      mf.numBuckets = m2.numBuckets ∧
      (∀ e ∈ occEntries (w6map.entries.take w6map.numBuckets), e.hash ≠ w6map.hash 5 →
        hashmapGet (some mf) (some e.key) = Res.val e.value)) :=
  ⟨⟨by unfold tableWellFormed; decide, by decide⟩,
   claim6_resize_grows_and_preserves_membership w6map 5 (some 15)
     (by unfold tableWellFormed; decide) (by decide)⟩

/-! ### C7 -/

/-- C7 (confirmed): for any non-null table (with its bucket count backed by
the array) and non-null key, a successful insert immediately followed by a get
of the same key returns exactly the value just inserted — including a NULL
value, which get faithfully returns (as NULL). -/
theorem claim7_insert_then_get_roundtrip (m : HashMap) (k : Key) (v : Option Nat)
    (mf : HashMap)
    (hpos : 0 < m.numBuckets) (hble : m.numBuckets ≤ m.entries.length)
    (hok : hashmapInsert (some m) (some k) v true true = InsertResult.result true (some mf)) :
    hashmapGet (some mf) (some k) = Res.val v := by
  rw [hashmapInsert] at hok
  cases hres2 : (if hashmapNeedsResize m then hashmapResize m true else ResizeResult.ok m) with
  | allocFail =>
    rw [hres2] at hok
    simp at hok
  | diverge =>
    rw [hres2] at hok
    simp at hok
  | ok m2 =>
    rw [hres2] at hok
    have hok2 : (match hashmapInsertEntries m2.entries m2.numBuckets
          (HashEntry.mk (m2.hash k) k v) with
        | none => InsertResult.diverge
        | some p => InsertResult.result true
            (some (HashMap.mk p.2 (m2.length + (if p.1 then 1 else 0))
              m2.numBuckets m2.hash))) = InsertResult.result true (some mf) := hok
    have hm2pos : 0 < m2.numBuckets ∧ m2.numBuckets ≤ m2.entries.length := by
      by_cases hnr : hashmapNeedsResize m = true
      · rw [hnr] at hres2
        simp only [if_true] at hres2
        simp only [hashmapResize] at hres2
        rw [if_neg (by simp : ¬ (true = false))] at hres2
        cases hcp : resizeCopy (m.numBuckets * (if HASHMAP_IS_LARGE m then 2 else 4))
            (m.entries.take m.numBuckets)
            (List.replicate (m.numBuckets * (if HASHMAP_IS_LARGE m then 2 else 4))
              Slot.empty) 0 m.length with
        | none => rw [hcp] at hres2; simp at hres2
        | some A2 =>
          rw [hcp] at hres2
          cases hres2
          constructor
          · exact Nat.mul_pos hpos (by split <;> omega)
          · show m.numBuckets * _ ≤ A2.length
            rw [resizeCopy_length _ _ _ _ _ _ hcp, List.length_replicate]
      · have hf : hashmapNeedsResize m = false := by
          revert hnr
          cases hashmapNeedsResize m <;> simp
        rw [hf] at hres2
        simp only [Bool.false_eq_true, if_false] at hres2
        cases hres2
        exact ⟨hpos, hble⟩
    obtain ⟨hm2p, hm2b⟩ := hm2pos
    cases hins : hashmapInsertEntries m2.entries m2.numBuckets (HashEntry.mk (m2.hash k) k v) with
    | none =>
      rw [hins] at hok2
      simp at hok2
    | some p =>
      rw [hins] at hok2
      cases hok2
      rw [hashmapInsertEntries,
        show (HashEntry.mk (m2.hash k) k v).hash = m2.hash k from rfl] at hins
      cases hf2 : findSlotEntries m2.entries m2.numBuckets (m2.hash k) with
      | none => rw [hf2] at hins; simp at hins
      | some i =>
        rw [hf2] at hins
        cases hins
        have hiA : i < m2.entries.length := by
          have := findSlotAux_lt m2.entries m2.numBuckets (m2.hash k) m2.numBuckets _ i
            (Nat.mod_lt _ hm2p) hf2
          omega
        have hret := retrievable_inserted m2.entries m2.numBuckets i
          (HashEntry.mk (m2.hash k) k v) hf2 hiA
        exact hashmapGet_of_retrievable _ (HashEntry.mk (m2.hash k) k v) rfl hret

/-- Witness for C7: inserting key 5 with value 7 into a fresh 4-bucket table
and reading it back. -/
theorem claim7_witness :
    (0 < w7map.numBuckets ∧ w7map.numBuckets ≤ w7map.entries.length ∧
     hashmapInsert (some w7map) (some 5) (some 7) true true =
       InsertResult.result true (some w7mapAfter)) ∧
    hashmapGet (some w7mapAfter) (some 5) = Res.val (some 7) :=
  ⟨⟨by decide, by decide, rfl⟩,
   claim7_insert_then_get_roundtrip w7map 5 (some 7) w7mapAfter (by decide) (by decide) rfl⟩

/-! ### C5 -/

/-- C5 (confirmed): when an allocation makes insert return false, the table
keeps its prior valid state.  If the resize allocation fails, the insert
returns false with the map object literally unchanged (original bucket array
untouched).  If the new-entry allocation fails (after any resize), the insert
returns false and the resulting table has the same live count, the same hash
callback, and exactly the same set of stored entries. -/
theorem claim5_alloc_failure_preserves_table (m : HashMap) (k : Key) (v : Option Nat)
    (eOk : Bool) (hwf : tableWellFormed m) :
    (hashmapNeedsResize m = true →
      hashmapInsert (some m) (some k) v false eOk = InsertResult.result false (some m)) ∧
    (∀ mf, hashmapInsert (some m) (some k) v true false = InsertResult.result false (some mf) →
      mf.length = m.length ∧ mf.hash = m.hash ∧
      (∀ e, e ∈ occEntries (mf.entries.take mf.numBuckets) ↔
        e ∈ occEntries (m.entries.take m.numBuckets))) := by
  constructor
  · intro htrig
    simp only [hashmapInsert, htrig, if_true]
    rfl
  · intro mf hok
    by_cases hnr : hashmapNeedsResize m = true
    · obtain ⟨m2, hres, hnum, hlen2, hl, hh, hlt, hnt2, hperm2, hwf2, hall2⟩ :=
        hashmapResize_ok m hwf
      rw [hashmapInsert] at hok
      simp only [hnr, if_true, hres] at hok
      have hok2 : InsertResult.result false (some m2) =
          InsertResult.result false (some mf) := hok
      have hmf : m2 = mf := by cases hok2; rfl
      subst hmf
      refine ⟨hl, hh, ?_⟩
      intro e
      have htake : m2.entries.take m2.numBuckets = m2.entries :=
        List.take_of_length_le (le_of_eq hlen2)
      rw [htake]
      exact hperm2.mem_iff
    · have hf : hashmapNeedsResize m = false := by
        revert hnr
        cases hashmapNeedsResize m <;> simp
      rw [hashmapInsert] at hok
      simp only [hf, Bool.false_eq_true, if_false] at hok
      have hok2 : InsertResult.result false (some m) =
          InsertResult.result false (some mf) := hok
      cases hok2
      exact ⟨rfl, rfl, fun e => Iff.rfl⟩

/-- Witness for C5 at a table that needs a resize. -/
theorem claim5_witness :
    tableWellFormed w6map ∧
    ((hashmapNeedsResize w6map = true →
      hashmapInsert (some w6map) (some 9) (some 99) false true =
        InsertResult.result false (some w6map)) ∧
    (∀ mf, hashmapInsert (some w6map) (some 9) (some 99) true false =
        InsertResult.result false (some mf) →
      mf.length = w6map.length ∧ mf.hash = w6map.hash ∧
      (∀ e, e ∈ occEntries (mf.entries.take mf.numBuckets) ↔
        e ∈ occEntries (w6map.entries.take w6map.numBuckets)))) :=
  ⟨by unfold tableWellFormed; decide,
   claim5_alloc_failure_preserves_table w6map 9 (some 99) true
     (by unfold tableWellFormed; decide)⟩
